import Mathlib

/-!
Verification development for the DEG repository: a layered Pareto-frontier
(skyline) pool over multi-dimensional distance vectors, in two variants
(plain `MultiVectorGPS` and weighted `MultiVectorDEG` with a per-point
pruning bitmap), plus the lighter `MultiVectorSkylineQueue`.

Shallow embedding conventions:
* C++ `float` distance values are modelled as rationals (`ℚ`); all inputs the
  programs are run on here are exact, and none of the verified claims depend
  on rounding of binary floating point.
* C++ `unsigned` ids are modelled as `Nat`, `int` layers as `Int`.
* The 64-bit words of the pruning bitmap are modelled as `Nat` kept below
  `2 ^ 64`; `~x` on 64 bits is modelled as xor with the all-ones word
  `2 ^ 64 - 1`.
* Thrown exceptions (`std::invalid_argument`, `std::out_of_range`) are
  modelled with `Except Err`.
* The `while` loops of `initNeighbor` / `updateNeighbor` are modelled with a
  fuel parameter instantiated at the length of the candidate list.  Each
  iteration of the source loops removes at least one point from the
  candidate set (proved below as `findSkyline_sky_ne_nil`), so this amount
  of fuel is always sufficient and `Err.FuelExhausted` is unreachable from
  the public entry points on inputs on which the C++ loops terminate.
-/

namespace stkq

/-- Errors thrown by the modelled operations.  `DimensionMismatch` stands for
the `std::invalid_argument` thrown on a distance-vector length mismatch,
`IndexError` for the `std::out_of_range` of the bitmap accessors. -/
inductive Err where
  | DimensionMismatch
  | IndexError
  | FuelExhausted
deriving DecidableEq, Repr

instance instDecEqExcept {ε α : Type} [DecidableEq ε] [DecidableEq α] :
    DecidableEq (Except ε α) := fun a b =>
  match a, b with
  | .error e, .error f =>
    if h : e = f then .isTrue (congrArg Except.error h)
    else .isFalse fun hc => h (Except.error.inj hc)
  | .ok x, .ok y =>
    if h : x = y then .isTrue (congrArg Except.ok h)
    else .isFalse fun hc => h (Except.ok.inj hc)
  | .error _, .ok _ => .isFalse fun hc => Except.noConfusion hc
  | .ok _, .error _ => .isFalse fun hc => Except.noConfusion hc

/-- The inner dominance test of `findSkyline` (identical in
`multi_vector_gps.h` and `multi_vector_deg.h`): `other` dominates `point`
iff `other.distances_[dim] <= point.distances_[dim]` for every
`dim < expected_dim` and strictly `<` for at least one such `dim`.
The source loop breaks at the first dimension where `other > point`; the
final value of `dominates && strictly_less` there equals this predicate. -/
def dominates (d : Nat) (other point : List ℚ) : Bool :=
  ((List.range d).all fun i => decide (other.getD i 0 ≤ point.getD i 0)) &&
    ((List.range d).any fun i => decide (other.getD i 0 < point.getD i 0))

theorem dominates_iff (d : Nat) (o p : List ℚ) :
    dominates d o p = true ↔
      (∀ i < d, o.getD i 0 ≤ p.getD i 0) ∧ (∃ i < d, o.getD i 0 < p.getD i 0) := by
  simp [dominates, List.all_eq_true, List.any_eq_true, List.mem_range]

theorem dominates_irrefl (d : Nat) (p : List ℚ) : dominates d p p = false := by
  rw [Bool.eq_false_iff]
  intro h
  rcases (dominates_iff d p p).1 h with ⟨_, i, _, hlt⟩
  exact absurd hlt (lt_irrefl _)

theorem dominates_trans {d : Nat} {a b c : List ℚ}
    (hab : dominates d a b = true) (hbc : dominates d b c = true) :
    dominates d a c = true := by
  rcases (dominates_iff d a b).1 hab with ⟨hle₁, i, hi, hlt₁⟩
  rcases (dominates_iff d b c).1 hbc with ⟨hle₂, _⟩
  refine (dominates_iff d a c).2 ⟨fun j hj => le_trans (hle₁ j hj) (hle₂ j hj),
    i, hi, lt_of_lt_of_le hlt₁ (hle₂ i hi)⟩

/-- Access to the fields the skyline algorithms read from a point; the plain
and the weighted neighbor type instantiate it. -/
structure PointOps (α : Type) where
  pid : α → Nat
  dist : α → List ℚ
  pflag : α → Bool

/-- The per-point test of the `findSkyline` main loop: `point` is kept on the
skyline iff no `other` input point with a different id dominates it. -/
def isSkyline (P : PointOps α) (d : Nat) (ps : List α) (p : α) : Bool :=
  !(ps.any fun o => decide (P.pid o ≠ P.pid p) && dominates d (P.dist o) (P.dist p))

theorem isSkyline_iff (P : PointOps α) (d : Nat) (ps : List α) (p : α) :
    isSkyline P d ps p = true ↔
      ∀ o ∈ ps, P.pid o ≠ P.pid p → dominates d (P.dist o) (P.dist p) = false := by
  simp only [isSkyline, Bool.not_eq_true', List.any_eq_false, Bool.and_eq_true,
    decide_eq_true_iff, not_and]
  constructor
  · intro h o ho hne
    rw [Bool.eq_false_iff]; exact h o ho hne
  · intro h o ho hne
    simp [h o ho hne]

/-- Model of `findSkyline` (identical in `MultiVectorGPS`, `MultiVectorDEG` and the two
queue classes): empty input appends nothing; otherwise every point is first
checked to have dimensionality `d` (`std::invalid_argument` before any output
is produced), and then the input is partitioned, in input order, into the
skyline points and the remaining (dominated) points. -/
def findSkyline (P : PointOps α) (d : Nat) (ps : List α) :
    Except Err (List α × List α) :=
  match ps with
  | [] => .ok ([], [])
  | _ :: _ =>
    if ps.all fun p => decide ((P.dist p).length = d) then
      .ok (ps.partition (isSkyline P d ps))
    else .error .DimensionMismatch

/-- Every finite nonempty point list has a member dominated by no list member
(dominance is irreflexive and transitive, so a minimal element exists). -/
theorem exists_undominated (P : PointOps α) (d : Nat) :
    ∀ (ps : List α), ps ≠ [] →
      ∃ m ∈ ps, ∀ o ∈ ps, dominates d (P.dist o) (P.dist m) = false := by
  intro ps
  induction ps with
  | nil => intro h; exact absurd rfl h
  | cons q rest ih =>
    intro _
    rcases eq_or_ne rest [] with hrest | hrest
    · subst hrest
      refine ⟨q, List.mem_cons_self q [], ?_⟩
      intro o ho
      rcases List.mem_singleton.1 ho with rfl
      exact dominates_irrefl d (P.dist o)
    · rcases ih hrest with ⟨m, hm, hmin⟩
      by_cases hq : dominates d (P.dist q) (P.dist m) = true
      · refine ⟨q, List.mem_cons_self q rest, ?_⟩
        intro o ho
        rcases List.mem_cons.1 ho with rfl | ho
        · exact dominates_irrefl d (P.dist o)
        · rw [Bool.eq_false_iff]
          intro hoq
          have : dominates d (P.dist o) (P.dist m) = true := dominates_trans hoq hq
          rw [hmin o ho] at this
          exact Bool.false_ne_true this
      · refine ⟨m, List.mem_cons_of_mem q hm, ?_⟩
        intro o ho
        rcases List.mem_cons.1 ho with rfl | ho
        · exact Bool.eq_false_iff.2 hq
        · exact hmin o ho

theorem findSkyline_empty (P : PointOps α) (d : Nat) :
    findSkyline P d [] = .ok ([], []) := rfl

theorem findSkyline_ok_iff (P : PointOps α) (d : Nat) (ps : List α) (hne : ps ≠ []) :
    (findSkyline P d ps =
        .ok (ps.filter (isSkyline P d ps), ps.filter fun p => !isSkyline P d ps p)) ↔
      ∀ p ∈ ps, (P.dist p).length = d := by
  obtain ⟨a, l, rfl⟩ := List.exists_cons_of_ne_nil hne
  show (if (a :: l).all fun p => decide ((P.dist p).length = d) then
      Except.ok ((a :: l).partition (isSkyline P d (a :: l)))
    else Except.error Err.DimensionMismatch) = _ ↔ _
  by_cases h : (a :: l).all fun p => decide ((P.dist p).length = d)
  · rw [if_pos h, List.partition_eq_filter_filter]
    simp only [List.all_eq_true, decide_eq_true_iff] at h
    exact iff_of_true rfl h
  · rw [if_neg h]
    simp only [List.all_eq_true, decide_eq_true_iff] at h
    exact iff_of_false (by simp) h

theorem findSkyline_ok_of_dims (P : PointOps α) (d : Nat) (ps : List α)
    (hd : ∀ p ∈ ps, (P.dist p).length = d) :
    findSkyline P d ps =
      .ok (ps.filter (isSkyline P d ps), ps.filter fun p => !isSkyline P d ps p) := by
  rcases eq_or_ne ps [] with rfl | hne
  · simp [findSkyline]
  · exact (findSkyline_ok_iff P d ps hne).2 hd

theorem findSkyline_error (P : PointOps α) (d : Nat) (ps : List α) (hne : ps ≠ [])
    (hbad : ∃ p ∈ ps, (P.dist p).length ≠ d) :
    findSkyline P d ps = .error .DimensionMismatch := by
  obtain ⟨a, l, rfl⟩ := List.exists_cons_of_ne_nil hne
  show (if (a :: l).all fun p => decide ((P.dist p).length = d) then
      Except.ok ((a :: l).partition (isSkyline P d (a :: l)))
    else Except.error Err.DimensionMismatch) = _
  rw [if_neg]
  simp only [List.all_eq_true, decide_eq_true_iff]
  rcases hbad with ⟨p, hp, hlen⟩
  exact fun h => hlen (h p hp)

/-- On a nonempty well-dimensioned input, the skyline part of the partition is
nonempty: the loop of the enclosing layering passes strictly shrinks its
candidate set. -/
theorem findSkyline_sky_ne_nil (P : PointOps α) (d : Nat) (ps : List α)
    (hne : ps ≠ []) : ps.filter (isSkyline P d ps) ≠ [] := by
  rcases exists_undominated P d ps hne with ⟨m, hm, hmin⟩
  have hsky : isSkyline P d ps m = true :=
    (isSkyline_iff P d ps m).2 fun o ho _ => hmin o ho
  intro hnil
  exact (List.filter_eq_nil_iff.1 hnil) m hm hsky

theorem findSkyline_ok_cases (P : PointOps α) (d : Nat) {ps sky rem : List α}
    (h : findSkyline P d ps = .ok (sky, rem)) :
    (ps = [] ∧ sky = [] ∧ rem = []) ∨
      (ps ≠ [] ∧ (∀ p ∈ ps, (P.dist p).length = d) ∧
        sky = ps.filter (isSkyline P d ps) ∧
        rem = ps.filter fun p => !isSkyline P d ps p) := by
  match ps with
  | [] =>
    left
    have h' : (Except.ok (([] : List α), ([] : List α)) : Except Err (List α × List α)) =
        .ok (sky, rem) := h
    have hpair := Except.ok.inj h'
    exact ⟨rfl, (congrArg Prod.fst hpair).symm, (congrArg Prod.snd hpair).symm⟩
  | a :: l =>
    right
    have h' := h
    show a :: l ≠ [] ∧ _
    rw [show findSkyline P d (a :: l) =
        (if (a :: l).all fun p => decide ((P.dist p).length = d) then
          Except.ok ((a :: l).partition (isSkyline P d (a :: l)))
        else Except.error Err.DimensionMismatch) from rfl] at h'
    by_cases hall : (a :: l).all fun p => decide ((P.dist p).length = d)
    · rw [if_pos hall, List.partition_eq_filter_filter] at h'
      have hpair := Except.ok.inj h'
      simp only [List.all_eq_true, decide_eq_true_iff] at hall
      refine ⟨List.cons_ne_nil a l, hall, ?_, ?_⟩
      · exact (congrArg Prod.fst hpair).symm
      · exact (congrArg Prod.snd hpair).symm
    · rw [if_neg hall] at h'
      exact absurd h' (by simp)

/-- The layering loop shared by `initNeighbor` and `initQueue`: repeatedly
extract the skyline of the remaining points, collecting the successive
layers, until the remainder is empty.  `fuel` bounds the number of
iterations; the entry points pass the input length, which always suffices
because each iteration removes the (nonempty) skyline from its input. -/
def peelAux (P : PointOps α) (d : Nat) (fuel : Nat) (ps : List α) :
    Except Err (List (List α)) :=
  match ps with
  | [] => .ok []
  | _ :: _ =>
    match fuel with
    | 0 => .error .FuelExhausted
    | Nat.succ f =>
      match findSkyline P d ps with
      | .error e => .error e
      | .ok (sky, rem) =>
        match peelAux P d f rem with
        | .error e => .error e
        | .ok rest => .ok (sky :: rest)

/-- Structural facts about the layers produced by `peelAux`: every layer is a
nonempty subset of the input; points in distinct layers are distinct values;
and a point of a later layer never dominates a point of an earlier layer
with a different id (the earlier point was on the skyline of a candidate set
still containing the later point). -/
theorem peelAux_spec (P : PointOps α) (d : Nat) :
    ∀ (fuel : Nat) (ps : List α) (layers : List (List α)),
      peelAux P d fuel ps = .ok layers →
      (∀ lay ∈ layers, lay ≠ [] ∧ ∀ p ∈ lay, p ∈ ps) ∧
      (∀ i j, i < j → ∀ p ∈ layers.getD i [], ∀ q ∈ layers.getD j [],
        p ≠ q ∧ (P.pid q ≠ P.pid p → dominates d (P.dist q) (P.dist p) = false)) := by
  intro fuel
  induction fuel with
  | zero =>
    intro ps layers h
    match ps with
    | [] =>
      rw [show peelAux P d 0 ([] : List α) = .ok [] from rfl] at h
      cases Except.ok.inj h
      exact ⟨fun lay hlay => absurd hlay (List.not_mem_nil lay),
        fun i j _ p hp => by simp at hp⟩
    | a :: l =>
      rw [show peelAux P d 0 (a :: l) = .error .FuelExhausted from rfl] at h
      exact absurd h (by simp)
  | succ f ih =>
    intro ps layers h
    match ps with
    | [] =>
      rw [show peelAux P d (f + 1) ([] : List α) = .ok [] from rfl] at h
      cases Except.ok.inj h
      exact ⟨fun lay hlay => absurd hlay (List.not_mem_nil lay),
        fun i j _ p hp => by simp at hp⟩
    | a :: l =>
      rw [show peelAux P d (f + 1) (a :: l) =
          (match findSkyline P d (a :: l) with
          | .error e => .error e
          | .ok (sky, rem) =>
            match peelAux P d f rem with
            | .error e => .error e
            | .ok rest => .ok (sky :: rest)) from rfl] at h
      rcases hfs : findSkyline P d (a :: l) with e | pr
      · rw [hfs] at h
        have h3 : (Except.error e : Except Err (List (List α))) = .ok layers := h
        exact absurd h3 (by simp)
      rcases pr with ⟨sky, rem⟩
      rw [hfs] at h
      have h2 : (match peelAux P d f rem with
          | Except.error e => (Except.error e : Except Err (List (List α)))
          | Except.ok rest => Except.ok (sky :: rest)) = Except.ok layers := h
      rcases hpe : peelAux P d f rem with e | rest
      · rw [hpe] at h2
        have h3 : (Except.error e : Except Err (List (List α))) = .ok layers := h2
        exact absurd h3 (by simp)
      rw [hpe] at h2
      have hlayers : layers = sky :: rest := (Except.ok.inj h2).symm
      subst hlayers
      rcases findSkyline_ok_cases P d hfs with ⟨hnil, _, _⟩ | ⟨_, _, hsky, hrem⟩
      · exact absurd hnil (List.cons_ne_nil a l)
      have hrec := ih rem rest hpe
      have hskyne : sky ≠ [] := by
        rw [hsky]; exact findSkyline_sky_ne_nil P d (a :: l) (List.cons_ne_nil a l)
      have hremsub : ∀ p ∈ rem, p ∈ a :: l := by
        intro p hp; rw [hrem] at hp; exact List.mem_of_mem_filter hp
      constructor
      · intro lay hlay
        rcases List.mem_cons.1 hlay with rfl | hlay
        · refine ⟨hskyne, ?_⟩
          intro p hp; rw [hsky] at hp; exact List.mem_of_mem_filter hp
        · rcases hrec.1 lay hlay with ⟨hne, hsub⟩
          exact ⟨hne, fun p hp => hremsub p (hsub p hp)⟩
      · intro i j hij p hp q hq
        match i, j, hij with
        | 0, j' + 1, _ =>
          rw [show (sky :: rest).getD 0 [] = sky from rfl] at hp
          rw [show (sky :: rest).getD (j' + 1) [] = rest.getD j' [] from rfl] at hq
          have hqrem : q ∈ rem := by
            rcases Nat.lt_or_ge j' rest.length with hjlt | hjge
            · have hmem : rest.getD j' [] ∈ rest := by
                rw [List.getD_eq_getElem rest [] hjlt]
                exact List.getElem_mem hjlt
              exact (hrec.1 (rest.getD j' []) hmem).2 q hq
            · rw [List.getD_eq_default _ _ hjge] at hq
              exact absurd hq (List.not_mem_nil q)
          have hpsky : isSkyline P d (a :: l) p = true := by
            rw [hsky] at hp; exact List.of_mem_filter hp
          constructor
          · intro hpq
            subst hpq
            rw [hrem] at hqrem
            have hfalse := (List.mem_filter.1 hqrem).2
            rw [hpsky] at hfalse
            simp at hfalse
          · intro hne
            exact (isSkyline_iff P d (a :: l) p).1 hpsky q (hremsub q hqrem) hne
        | i' + 1, j' + 1, hij =>
          rw [show (sky :: rest).getD (i' + 1) [] = rest.getD i' [] from rfl] at hp
          rw [show (sky :: rest).getD (j' + 1) [] = rest.getD j' [] from rfl] at hq
          exact hrec.2 i' j' (Nat.lt_of_succ_lt_succ hij) p hp q hq

/-- Elements of any produced layer are input points. -/
theorem peelAux_mem (P : PointOps α) (d : Nat) {fuel : Nat} {ps : List α}
    {layers : List (List α)} (h : peelAux P d fuel ps = .ok layers) :
    ∀ lay ∈ layers, ∀ p ∈ lay, p ∈ ps :=
  fun lay hlay => ((peelAux_spec P d fuel ps layers h).1 lay hlay).2

/-- The capacity-bounded layering loop of `updateNeighbor`: keep peeling
skyline layers off the sorted candidate list while the pool holds fewer than
`M` points and candidates remain; each admitted layer is appended whole.
`poolSize` is the current pool size, `fuel` bounds the iterations. -/
def updateLayersAux (P : PointOps α) (d M : Nat) (fuel poolSize : Nat)
    (cand : List α) : Except Err (List (List α)) :=
  if poolSize < M ∧ 0 < cand.length then
    match fuel with
    | 0 => .error .FuelExhausted
    | Nat.succ f =>
      match findSkyline P d cand with
      | .error e => .error e
      | .ok (sky, rem) =>
        match updateLayersAux P d M f (poolSize + sky.length) rem with
        | .error e => .error e
        | .ok rest => .ok (sky :: rest)
  else .ok []

/-- Accounting for the bounded update loop: the admitted layers cannot hold
more points than the candidate list, and every layer except the last was
admitted while the pool still had fewer than `M` points, so the final pool
exceeds `M` by less than the size of the last admitted layer. -/
theorem updateLayersAux_spec (P : PointOps α) (d M : Nat) :
    ∀ (fuel poolSize : Nat) (cand : List α) (layers : List (List α)),
      updateLayersAux P d M fuel poolSize cand = .ok layers →
      ((layers.map List.length).sum ≤ cand.length ∧
        ∀ lay ∈ layers, ∀ p ∈ lay, p ∈ cand) ∧
      (∀ last, layers.getLast? = some last →
        poolSize + (layers.map List.length).sum < M + last.length) := by
  intro fuel
  induction fuel with
  | zero =>
    intro poolSize cand layers h
    rw [updateLayersAux] at h
    by_cases hc : poolSize < M ∧ 0 < cand.length
    · rw [if_pos hc] at h; exact absurd h (by simp)
    · rw [if_neg hc] at h
      cases Except.ok.inj h
      refine ⟨⟨by simp, by simp⟩, ?_⟩
      intro last hlast
      simp at hlast
  | succ f ih =>
    intro poolSize cand layers h
    rw [updateLayersAux] at h
    by_cases hc : poolSize < M ∧ 0 < cand.length
    · rw [if_pos hc] at h
      rcases hfs : findSkyline P d cand with e | pr
      · rw [hfs] at h
        exact absurd (h : (Except.error e : Except Err (List (List α))) = _) (by simp)
      rcases pr with ⟨sky, rem⟩
      rw [hfs] at h
      have h2 : (match updateLayersAux P d M f (poolSize + sky.length) rem with
          | Except.error e => (Except.error e : Except Err (List (List α)))
          | Except.ok rest => Except.ok (sky :: rest)) = Except.ok layers := h
      rcases hup : updateLayersAux P d M f (poolSize + sky.length) rem with e | rest
      · rw [hup] at h2; exact absurd h2 (by simp)
      rw [hup] at h2
      have hlayers : layers = sky :: rest := (Except.ok.inj h2).symm
      subst hlayers
      have hcand_ne : cand ≠ [] := List.length_pos.1 hc.2
      rcases findSkyline_ok_cases P d hfs with ⟨hnil, _, _⟩ | ⟨_, _, hsky, hrem⟩
      · exact absurd hnil hcand_ne
      have hlen : cand.length = sky.length + rem.length := by
        rw [hsky, hrem]
        exact List.length_eq_length_filter_add (isSkyline P d cand)
      have hrec := ih (poolSize + sky.length) rem rest hup
      constructor
      · constructor
        · calc ((sky :: rest).map List.length).sum
              = sky.length + (rest.map List.length).sum := by simp
            _ ≤ sky.length + rem.length := by
                have := hrec.1.1; omega
            _ = cand.length := hlen.symm
        · intro lay hlay p hp
          rcases List.mem_cons.1 hlay with rfl | hlay
          · rw [hsky] at hp; exact List.mem_of_mem_filter hp
          · have hprem : p ∈ rem := hrec.1.2 lay hlay p hp
            rw [hrem] at hprem; exact List.mem_of_mem_filter hprem
      · intro last hlast
        rcases eq_or_ne rest [] with rfl | hrest_ne
        · have hlast' : last = sky := by
            rw [List.getLast?_singleton] at hlast
            exact (Option.some.inj hlast).symm
          subst hlast'
          simp only [List.map_cons, List.map_nil, List.sum_cons, List.sum_nil]
          omega
        · have hlast' : rest.getLast? = some last := by
            obtain ⟨b, t, rfl⟩ := List.exists_cons_of_ne_nil hrest_ne
            rw [List.getLast?_cons_cons] at hlast
            exact hlast
          have := hrec.2 last hlast'
          simp only [List.map_cons, List.sum_cons]
          omega
    · rw [if_neg hc] at h
      cases Except.ok.inj h
      refine ⟨⟨by simp, by simp⟩, ?_⟩
      intro last hlast
      simp at hlast

/-- The pool-filling loop body shared by the layering passes: each layer is
appended whole, its points reconstructed with the current layer number `l0`
(via `mk`, which models the `pool_.emplace_back(...)` constructor call). -/
def appendLayers (mk : α → Int → α) : Int → List (List α) → List α
  | _, [] => []
  | l0, lay :: rest => lay.map (fun p => mk p l0) ++ appendLayers mk (l0 + 1) rest

theorem appendLayers_length (mk : α → Int → α) :
    ∀ (layers : List (List α)) (l0 : Int),
      (appendLayers mk l0 layers).length = (layers.map List.length).sum := by
  intro layers
  induction layers with
  | nil => intro l0; rfl
  | cons lay rest ih =>
    intro l0
    simp [appendLayers, ih (l0 + 1)]

theorem mem_appendLayers (mk : α → Int → α) :
    ∀ (layers : List (List α)) (l0 : Int) (a : α),
      a ∈ appendLayers mk l0 layers ↔
        ∃ i < layers.length, ∃ p ∈ layers.getD i [], a = mk p (l0 + i) := by
  intro layers
  induction layers with
  | nil =>
    intro l0 a
    simp [appendLayers]
  | cons lay rest ih =>
    intro l0 a
    rw [appendLayers, List.mem_append, List.mem_map, ih (l0 + 1) a]
    constructor
    · rintro (⟨p, hp, rfl⟩ | ⟨i, hi, p, hp, rfl⟩)
      · exact ⟨0, Nat.succ_pos _, p, hp, by simp⟩
      · refine ⟨i + 1, Nat.succ_lt_succ hi, p, hp, ?_⟩
        have : l0 + 1 + (i : Int) = l0 + ((i : Int) + 1) := by ring
        rw [show ((i + 1 : Nat) : Int) = (i : Int) + 1 from by push_cast; ring, ← this]
    · rintro ⟨i, hi, p, hp, rfl⟩
      match i with
      | 0 =>
        left
        exact ⟨p, by simpa using hp, by simp⟩
      | i' + 1 =>
        right
        refine ⟨i', Nat.lt_of_succ_lt_succ hi, p, by simpa using hp, ?_⟩
        rw [show ((i' + 1 : Nat) : Int) = (i' : Int) + 1 from by push_cast; ring]
        ring_nf

/-- Model of `MultiVectorNeighbor` of `multi_vector_gps.h`: id, per-dimension distance
values, flag and layer. -/
structure MultiVectorNeighbor where
  id_ : Nat
  distances_ : List ℚ
  flag : Bool
  layer_ : Int
deriving DecidableEq, Repr

/-- Model of `MultiVectorNeighbor::operator<`: lexicographic comparison of the distance
vectors over their common prefix, with the shorter vector first on a tie. -/
def distLt : List ℚ → List ℚ → Bool
  | a :: as, b :: bs => if a ≠ b then decide (a < b) else distLt as bs
  | as, bs => decide (as.length < bs.length)

/-- The ordering predicate used to model `std::sort(pool.begin(), pool.end())`
on neighbors: `p` may precede `q` whenever `q < p` does not hold. -/
def neighborLe (p q : MultiVectorNeighbor) : Bool :=
  !distLt q.distances_ p.distances_

/-- Field access for the plain neighbor type. -/
def gpsOps : PointOps MultiVectorNeighbor :=
  ⟨MultiVectorNeighbor.id_, MultiVectorNeighbor.distances_, MultiVectorNeighbor.flag⟩

/-- The `pool_.emplace_back(point.id_, point.distances_, true, l)` of
`MultiVectorGPS::initNeighbor` / `MultiVectorSkylineQueue::initQueue`. -/
def gpsInitMk (p : MultiVectorNeighbor) (l : Int) : MultiVectorNeighbor :=
  ⟨p.id_, p.distances_, true, l⟩

/-- The `pool_.emplace_back(point.id_, point.distances_, point.flag, l)` of
the `updateNeighbor` loops. -/
def gpsUpdMk (p : MultiVectorNeighbor) (l : Int) : MultiVectorNeighbor :=
  ⟨p.id_, p.distances_, p.flag, l⟩

/-- The model of `std::sort` on the neighbor pool: a sorted permutation
under `operator<` (`std::sort` is not stable, so the order of elements with
equal distance vectors is unspecified in the source; the model fixes one
valid sorted order). -/
def sortNeighbors (l : List MultiVectorNeighbor) : List MultiVectorNeighbor :=
  l.insertionSort fun p q => neighborLe p q = true

/-- The state of a `MultiVectorGPS` instance (`pool_`, `outlier_`, capacity
`M_`, `num_layer_`, `num_dimensions_`).  The `nn_/rnn_` scratch vectors and
`Q_` do not participate in any modelled operation and are omitted; the mutex
serialises the operations, which are modelled as whole-state transitions. -/
structure MultiVectorGPS where
  pool_ : List MultiVectorNeighbor
  outlier_ : List MultiVectorNeighbor
  M_ : Nat
  num_layer_ : Nat
  num_dimensions_ : Nat
deriving DecidableEq, Repr

/-- The layering pass of `initNeighbor` / `initQueue`, with fuel set to the
input length (sufficient; see `peelAux`). -/
def initLayers (P : PointOps α) (d : Nat) (ps : List α) : Except Err (List (List α)) :=
  peelAux P d ps.length ps

/-- Model of `MultiVectorGPS::initNeighbor`: peel skyline layers off `insert_points`
until it is exhausted, appending each layer to `pool_` with `flag := true`
and the current layer number; after each iteration `outlier_` is swapped
with the just-extracted layer, so it ends up holding the last extracted
layer (the original input copies).  Finally the pool is sorted by
`operator<` and `num_layer_` is set to the number of layers. -/
def MultiVectorGPS.initNeighbor (st : MultiVectorGPS)
    (insert_points : List MultiVectorNeighbor) : Except Err MultiVectorGPS :=
  match initLayers gpsOps st.num_dimensions_ insert_points with
  | .error e => .error e
  | .ok layers =>
    .ok (MultiVectorGPS.mk
      (sortNeighbors (st.pool_ ++ appendLayers gpsInitMk 0 layers))
      (match layers.getLast? with
        | some lay => lay
        | none => st.outlier_)
      st.M_ layers.length st.num_dimensions_)

/-- The bounded layering pass of `MultiVectorGPS::updateNeighbor`: the pool is
emptied into a candidate list, sorted, and peeled while the (re-filling)
pool holds fewer than `M_` points and candidates remain. -/
def MultiVectorGPS.updateLayers (st : MultiVectorGPS) :
    Except Err (List (List MultiVectorNeighbor)) :=
  updateLayersAux gpsOps st.num_dimensions_ st.M_ st.pool_.length 0
    (sortNeighbors st.pool_)

/-- Model of `MultiVectorGPS::updateNeighbor`: re-layer the current pool contents
(only!) under the capacity bound; the flag of each point is preserved,
`outlier_` ends up holding the last admitted layer (or is left unchanged if
no iteration ran), and `num_layer_` is set to the number of layers.  Note
that the outlier set is not added to the candidate list. -/
def MultiVectorGPS.updateNeighbor (st : MultiVectorGPS) : Except Err MultiVectorGPS :=
  match st.updateLayers with
  | .error e => .error e
  | .ok layers =>
    .ok (MultiVectorGPS.mk
      (appendLayers gpsUpdMk 0 layers)
      (match layers.getLast? with
        | some lay => lay
        | none => st.outlier_)
      st.M_ layers.length st.num_dimensions_)

/-- Model of `MultiVectorGPS::insert`: validate the vector length, silently ignore ids
already present in `pool_` or `outlier_`, otherwise append the point to
`outlier_` with `flag := true` and layer `0`. -/
def MultiVectorGPS.insert (st : MultiVectorGPS) (id : Nat) (distances : List ℚ) :
    Except Err MultiVectorGPS :=
  if distances.length ≠ st.num_dimensions_ then .error .DimensionMismatch
  else if st.pool_.any fun p => decide (p.id_ = id) then .ok st
  else if st.outlier_.any fun p => decide (p.id_ = id) then .ok st
  else .ok (MultiVectorGPS.mk st.pool_
    (st.outlier_ ++ [⟨id, distances, true, 0⟩])
    st.M_ st.num_layer_ st.num_dimensions_)

/-- Model of `MultiVectorGPS::clear`. -/
def MultiVectorGPS.clear (st : MultiVectorGPS) : MultiVectorGPS :=
  MultiVectorGPS.mk [] [] st.M_ 0 st.num_dimensions_

/-- The state of a `MultiVectorSkylineQueue` instance. -/
structure MultiVectorSkylineQueue where
  pool_ : List MultiVectorNeighbor
  M_ : Nat
  num_layer_ : Nat
  num_dimensions_ : Nat
deriving DecidableEq, Repr

/-- One step of the position bookkeeping in
`MultiVectorSkylineQueue::updateNeighbor`, applied per appended point: while
`updated` is still true, a flagged point stores the current `k` into `nk`
and clears `updated`, an unflagged point increments `k`; in either case `k`
is incremented once more at the end of the loop body. -/
def nkStep (s : Bool × Int × Int) (p : MultiVectorNeighbor) : Bool × Int × Int :=
  match s with
  | (updated, nk, k) =>
    let s2 : Bool × Int × Int :=
      if updated then
        (if p.flag then (false, k, k) else (true, nk, k + 1))
      else (updated, nk, k)
    (s2.1, s2.2.1, s2.2.2 + 1)

/-- Model of `MultiVectorSkylineQueue::updateNeighbor(int &nk)`: re-layer the sorted
pool under the capacity bound, and while doing so run the `nk`/`k`
bookkeeping over the appended points; returns the new queue state together
with the final value of the by-reference parameter `nk`. -/
def MultiVectorSkylineQueue.updateNeighbor (q : MultiVectorSkylineQueue) (nk : Int) :
    Except Err (MultiVectorSkylineQueue × Int) :=
  match updateLayersAux gpsOps q.num_dimensions_ q.M_ q.pool_.length 0
      (sortNeighbors q.pool_) with
  | .error e => .error e
  | .ok layers =>
    let pool := appendLayers gpsUpdMk 0 layers
    let r := pool.foldl nkStep (true, nk, 0)
    .ok (MultiVectorSkylineQueue.mk pool q.M_ layers.length q.num_dimensions_, r.2.1)

/-- Model of `MultiVectorDEGNeighbor` of `multi_vector_deg.h`: id, distances, the
pruning bitmap (64-bit words, modelled as naturals below `2 ^ 64`), flag,
layer and the number of weight combinations the bitmap is keyed by. -/
structure MultiVectorDEGNeighbor where
  id_ : Nat
  distances_ : List ℚ
  pruning_bitmap_ : List Nat
  flag : Bool
  layer_ : Int
  num_weight_combinations_ : Nat
deriving DecidableEq, Repr

/-- The `MultiVectorDEGNeighbor` constructor: the bitmap is sized to
`ceil(num_weight_combinations / 64)` words, all clear. -/
def mkDEGNeighbor (id : Nat) (distances : List ℚ) (numWC : Nat) (f : Bool)
    (layer : Int) : MultiVectorDEGNeighbor :=
  ⟨id, distances, List.replicate ((numWC + 63) / 64) 0, f, layer, numWC⟩

/-- Model of `MultiVectorDEGNeighbor::setPruned`: bounds-check the weight index, then
set or clear bit `weight_idx % 64` of word `weight_idx / 64`.  Clearing uses
`&= ~(1 << bit)`, with 64-bit `~` modelled as xor with `2 ^ 64 - 1`. -/
def MultiVectorDEGNeighbor.setPruned (p : MultiVectorDEGNeighbor)
    (weight_idx : Nat) (pruned : Bool) : Except Err MultiVectorDEGNeighbor :=
  if weight_idx ≥ p.num_weight_combinations_ then .error .IndexError
  else
    let w := weight_idx / 64
    let b := weight_idx % 64
    let old := p.pruning_bitmap_.getD w 0
    let updated := if pruned then old ||| 2 ^ b else old &&& ((2 ^ 64 - 1) ^^^ 2 ^ b)
    .ok ⟨p.id_, p.distances_, p.pruning_bitmap_.set w updated, p.flag, p.layer_,
      p.num_weight_combinations_⟩

/-- Model of `MultiVectorDEGNeighbor::isPruned`: bounds-check the weight index, then
test bit `weight_idx % 64` of word `weight_idx / 64`. -/
def MultiVectorDEGNeighbor.isPruned (p : MultiVectorDEGNeighbor)
    (weight_idx : Nat) : Except Err Bool :=
  if weight_idx ≥ p.num_weight_combinations_ then .error .IndexError
  else .ok (decide
    (p.pruning_bitmap_.getD (weight_idx / 64) 0 &&& 2 ^ (weight_idx % 64) ≠ 0))

/-- Field access for the weighted neighbor type. -/
def degOps : PointOps MultiVectorDEGNeighbor :=
  ⟨MultiVectorDEGNeighbor.id_, MultiVectorDEGNeighbor.distances_,
    MultiVectorDEGNeighbor.flag⟩

/-- Model of `MultiVectorDEGNeighbor::operator<` (same lexicographic comparison). -/
def degLe (p q : MultiVectorDEGNeighbor) : Bool :=
  !distLt q.distances_ p.distances_

/-- The `pool_.emplace_back(point.id_, point.distances_,
num_weight_combinations_, true, l)` of `MultiVectorDEG::initNeighbor`: the
rebuilt point gets a fresh all-clear bitmap. -/
def degInitMk (nwc : Nat) (p : MultiVectorDEGNeighbor) (l : Int) :
    MultiVectorDEGNeighbor :=
  mkDEGNeighbor p.id_ p.distances_ nwc true l

/-- The corresponding `emplace_back` of `MultiVectorDEG::updateNeighbor`
(flag preserved). -/
def degUpdMk (nwc : Nat) (p : MultiVectorDEGNeighbor) (l : Int) :
    MultiVectorDEGNeighbor :=
  mkDEGNeighbor p.id_ p.distances_ nwc p.flag l

/-- The model of `std::sort` on the weighted pool (see `sortNeighbors`). -/
def sortDEGNeighbors (l : List MultiVectorDEGNeighbor) : List MultiVectorDEGNeighbor :=
  l.insertionSort fun p q => degLe p q = true

/-- The state of a `MultiVectorDEG` instance; `weight_combinations_` itself is
determined by `num_dimensions_` and is not read by the pool operations, only
its count is threaded into constructed points. -/
structure MultiVectorDEG where
  pool_ : List MultiVectorDEGNeighbor
  outlier_ : List MultiVectorDEGNeighbor
  M_ : Nat
  num_layer_ : Nat
  num_dimensions_ : Nat
  num_weight_combinations_ : Nat
deriving DecidableEq, Repr

/-- Model of `MultiVectorDEG::initNeighbor` (same loop as the GPS variant, with the
weighted constructor). -/
def MultiVectorDEG.initNeighbor (st : MultiVectorDEG)
    (insert_points : List MultiVectorDEGNeighbor) : Except Err MultiVectorDEG :=
  match initLayers degOps st.num_dimensions_ insert_points with
  | .error e => .error e
  | .ok layers =>
    .ok (MultiVectorDEG.mk
      (sortDEGNeighbors (st.pool_ ++ appendLayers (degInitMk st.num_weight_combinations_) 0 layers))
      (match layers.getLast? with
        | some lay => lay
        | none => st.outlier_)
      st.M_ layers.length st.num_dimensions_ st.num_weight_combinations_)

/-- The bounded layering pass of `MultiVectorDEG::updateNeighbor`. -/
def MultiVectorDEG.updateLayers (st : MultiVectorDEG) :
    Except Err (List (List MultiVectorDEGNeighbor)) :=
  updateLayersAux degOps st.num_dimensions_ st.M_ st.pool_.length 0
    (sortDEGNeighbors st.pool_)

/-- Model of `MultiVectorDEG::updateNeighbor` (same loop as the GPS variant; the
outlier set is again not consulted). -/
def MultiVectorDEG.updateNeighbor (st : MultiVectorDEG) : Except Err MultiVectorDEG :=
  match st.updateLayers with
  | .error e => .error e
  | .ok layers =>
    .ok (MultiVectorDEG.mk
      (appendLayers (degUpdMk st.num_weight_combinations_) 0 layers)
      (match layers.getLast? with
        | some lay => lay
        | none => st.outlier_)
      st.M_ layers.length st.num_dimensions_ st.num_weight_combinations_)

/-- Model of `MultiVectorDEG::insert`. -/
def MultiVectorDEG.insert (st : MultiVectorDEG) (id : Nat) (distances : List ℚ) :
    Except Err MultiVectorDEG :=
  if distances.length ≠ st.num_dimensions_ then .error .DimensionMismatch
  else if st.pool_.any fun p => decide (p.id_ = id) then .ok st
  else if st.outlier_.any fun p => decide (p.id_ = id) then .ok st
  else .ok (MultiVectorDEG.mk st.pool_
    (st.outlier_ ++ [mkDEGNeighbor id distances st.num_weight_combinations_ true 0])
    st.M_ st.num_layer_ st.num_dimensions_ st.num_weight_combinations_)

/-- Model of `MultiVectorDEG::findSkyline` applied to a point list (identical loop to
the GPS variant, instantiated at the weighted neighbor type). -/
def MultiVectorDEG.runFindSkyline (d : Nat) (ps : List MultiVectorDEGNeighbor) :
    Except Err (List MultiVectorDEGNeighbor × List MultiVectorDEGNeighbor) :=
  findSkyline degOps d ps

/-- Model of `MultiVectorGPS::findSkyline` applied to a point list. -/
def MultiVectorGPS.runFindSkyline (d : Nat) (ps : List MultiVectorNeighbor) :
    Except Err (List MultiVectorNeighbor × List MultiVectorNeighbor) :=
  findSkyline gpsOps d ps

/-- The recursive `backtrack` lambda of `generateWeightCombinations` in
`multi_vector_deg.h`, modelled in exact arithmetic: every weight is a
multiple of `0.1` (the code rounds each candidate to the nearest tenth, and
its `±0.001` tolerances are narrower than one tenth), so a weight is
represented by its value in tenths, an integer in `[0, 10]`.  The argument
is the number of dimensions still to fill after the current one
(`num_dimensions - 1 - dim`); `sumT` is `current_sum` in tenths.  The
last dimension receives `1 - current_sum`, accepted when it lies in
`[0, 1]`; earlier dimensions try `w = 0, 0.1, ...` while
`current_sum + w <= 1`, keeping `w` when the remaining budget fits in the
remaining dimensions. -/
def wcBacktrack : Nat → Int → List (List Int)
  | 0, sumT =>
    if 0 ≤ 10 - sumT ∧ 10 - sumT ≤ 10 then [[10 - sumT]] else []
  | k + 1, sumT =>
    ((List.range 11).takeWhile fun (t : Nat) => decide (sumT + (t : Int) ≤ 10)).flatMap
      fun (t : Nat) =>
        if 0 ≤ 10 - (sumT + (t : Int)) ∧ 10 - (sumT + (t : Int)) ≤ ((k : Int) + 1) * 10 then
          (wcBacktrack k (sumT + (t : Int))).map (List.cons (t : Int))
        else []

/-- Lexicographic `std::vector` `operator<` on weight vectors (in tenths). -/
def vecLt : List Int → List Int → Bool
  | [], [] => false
  | [], _ :: _ => true
  | _ :: _, [] => false
  | a :: as, b :: bs => if a < b then true else if b < a then false else vecLt as bs

/-- The comparison under which `std::sort` orders the generated combinations. -/
def wcLe (a b : List Int) : Bool := !vecLt b a

/-- The model of `std::sort` on the generated weight combinations. -/
def sortWC (l : List (List Int)) : List (List Int) :=
  l.insertionSort fun a b => wcLe a b = true

/-- Model of `generateWeightCombinations` of `multi_vector_deg.h` (weights in tenths):
`d = 0` gives no combination, `d = 1` only `{1.0}`; otherwise the
backtracking enumeration runs and the result is sorted and deduplicated
(`std::sort` followed by `std::unique`/`erase`, modelled by a sort and
`destutter (· ≠ ·)`, which drops adjacent duplicates). -/
def generateWeightCombinations (num_dimensions : Nat) : List (List Int) :=
  if num_dimensions = 0 then []
  else if num_dimensions = 1 then [[10]]
  else
    (sortWC (wcBacktrack (num_dimensions - 1) 0)).destutter (· ≠ ·)

/-- Counting companion of `wcBacktrack` (same recursion, lengths only). -/
def wcCount : Nat → Int → Nat
  | 0, sumT => if 0 ≤ 10 - sumT ∧ 10 - sumT ≤ 10 then 1 else 0
  | k + 1, sumT =>
    (((List.range 11).takeWhile fun (t : Nat) => decide (sumT + (t : Int) ≤ 10)).map
      fun (t : Nat) =>
        if 0 ≤ 10 - (sumT + (t : Int)) ∧ 10 - (sumT + (t : Int)) ≤ ((k : Int) + 1) * 10 then
          wcCount k (sumT + (t : Int))
        else 0).sum

theorem wcBacktrack_length : ∀ (k : Nat) (s : Int),
    (wcBacktrack k s).length = wcCount k s := by
  intro k
  induction k with
  | zero =>
    intro s
    rw [wcBacktrack, wcCount]
    split <;> rfl
  | succ k ih =>
    intro s
    rw [wcBacktrack, wcCount, List.flatMap, List.length_flatten, List.map_map]
    congr 1
    refine List.map_congr_left ?_
    intro t _
    show ((if _ then (wcBacktrack k (s + (t : Int))).map (List.cons (t : Int))
      else []).length) = _
    split
    · rw [List.length_map]; exact ih (s + (t : Int))
    · rfl

theorem wcBacktrack_nodup : ∀ (k : Nat) (s : Int), (wcBacktrack k s).Nodup := by
  intro k
  induction k with
  | zero =>
    intro s
    rw [wcBacktrack]
    split
    · exact List.nodup_singleton _
    · exact List.nodup_nil
  | succ k ih =>
    intro s
    rw [wcBacktrack]
    refine List.nodup_flatMap.2 ⟨?_, ?_⟩
    · intro t _
      split
      · exact (ih (s + (t : Int))).map fun x y h => by injection h
      · exact List.nodup_nil
    · have hpw : ((List.range 11).takeWhile
          fun (t : Nat) => decide (s + (t : Int) ≤ 10)).Pairwise (· < ·) :=
        (List.pairwise_lt_range 11).sublist (List.takeWhile_sublist _)
      refine hpw.imp ?_
      intro t u htu
      intro a hat hau
      have hat2 : a ∈ (if 0 ≤ 10 - (s + (t : Int)) ∧
          10 - (s + (t : Int)) ≤ ((k : Int) + 1) * 10 then
          (wcBacktrack k (s + (t : Int))).map (List.cons (t : Int)) else []) := hat
      have hau2 : a ∈ (if 0 ≤ 10 - (s + (u : Int)) ∧
          10 - (s + (u : Int)) ≤ ((k : Int) + 1) * 10 then
          (wcBacktrack k (s + (u : Int))).map (List.cons (u : Int)) else []) := hau
      have ht : ∃ x, a = (t : Int) :: x := by
        by_cases hc : 0 ≤ 10 - (s + (t : Int)) ∧ 10 - (s + (t : Int)) ≤ ((k : Int) + 1) * 10
        · rw [if_pos hc] at hat2
          rcases List.mem_map.1 hat2 with ⟨x, _, rfl⟩
          exact ⟨x, rfl⟩
        · rw [if_neg hc] at hat2
          exact absurd hat2 (List.not_mem_nil a)
      have hu : ∃ x, a = (u : Int) :: x := by
        by_cases hc : 0 ≤ 10 - (s + (u : Int)) ∧ 10 - (s + (u : Int)) ≤ ((k : Int) + 1) * 10
        · rw [if_pos hc] at hau2
          rcases List.mem_map.1 hau2 with ⟨x, _, rfl⟩
          exact ⟨x, rfl⟩
        · rw [if_neg hc] at hau2
          exact absurd hau2 (List.not_mem_nil a)
      rcases ht with ⟨x, rfl⟩
      rcases hu with ⟨y, hy⟩
      have heq : (t : Int) = (u : Int) := (List.cons.inj hy).1
      have : t = u := Int.ofNat.inj heq
      omega

theorem sortWC_nodup (l : List (List Int)) (h : l.Nodup) : (sortWC l).Nodup :=
  (List.perm_insertionSort _ l).symm.nodup h

theorem gwc_eq_of_two_le (d : Nat) (h : 2 ≤ d) :
    generateWeightCombinations d = sortWC (wcBacktrack (d - 1) 0) := by
  have hnd : (sortWC (wcBacktrack (d - 1) 0)).Nodup :=
    sortWC_nodup _ (wcBacktrack_nodup _ _)
  rw [generateWeightCombinations, if_neg (by omega), if_neg (by omega)]
  exact List.destutter_of_chain' _ _ (List.Pairwise.chain' hnd)

theorem gwc_length_of_two_le (d : Nat) (h : 2 ≤ d) :
    (generateWeightCombinations d).length = wcCount (d - 1) 0 := by
  rw [gwc_eq_of_two_le d h]
  rw [show (sortWC (wcBacktrack (d - 1) 0)).length = (wcBacktrack (d - 1) 0).length from
    List.length_insertionSort _ _]
  rw [wcBacktrack_length]

theorem gwc_nodup (d : Nat) : (generateWeightCombinations d).Nodup := by
  rcases Nat.lt_or_ge d 2 with hd | hd
  · interval_cases d
    · exact List.nodup_nil
    · exact List.nodup_singleton _
  · rw [gwc_eq_of_two_le d hd]
    exact sortWC_nodup _ (wcBacktrack_nodup _ _)

theorem list_sum_range_eq (f : Nat → Nat) (n : Nat) :
    ((List.range n).map f).sum = ∑ i ∈ Finset.range n, f i := by
  rfl

theorem takeWhile_range_eq (s : Int) (h0 : 0 ≤ s) (h10 : s ≤ 10) :
    ((List.range 11).takeWhile fun (t : Nat) => decide (s + (t : Int) ≤ 10)) =
      List.range ((10 - s).toNat + 1) := by
  set n := (10 - s).toNat with hn
  have h11 : (11 : Nat) = (n + 1) + (10 - n) := by omega
  rw [h11, List.range_add, List.takeWhile_append_of_pos]
  · have htail : ((List.range (10 - n)).map ((n + 1) + ·)).takeWhile
        (fun (t : Nat) => decide (s + (t : Int) ≤ 10)) = [] := by
      rcases hmn : 10 - n with _ | m
      · simp
      · rw [List.range_succ_eq_map, List.map_cons, List.takeWhile_cons]
        have hd : (decide (s + (((n + 1) + 0 : Nat) : Int) ≤ 10)) = false := by
          simp only [decide_eq_false_iff_not]
          push_cast
          omega
        simp only [hd]
        rfl
    rw [htail, List.append_nil]
  · intro a ha
    have : a < n + 1 := List.mem_range.1 ha
    simp only [decide_eq_true_eq]
    omega

/-- The stars-and-bars count: starting from a used budget of `s` tenths, the
backtracking enumeration produces `C((10 - s) + k, k)` combinations for
`k + 1` dimensions (hockey-stick identity over the first dimension). -/
theorem wcCount_eq : ∀ (k : Nat) (s : Int), 0 ≤ s → s ≤ 10 →
    wcCount k s = Nat.choose ((10 - s).toNat + k) k := by
  intro k
  induction k with
  | zero =>
    intro s h0 h10
    rw [wcCount, if_pos ⟨by omega, by omega⟩, Nat.choose_zero_right]
  | succ k ih =>
    intro s h0 h10
    rw [wcCount, takeWhile_range_eq s h0 h10]
    set n := (10 - s).toNat with hn
    have hmap : (List.range (n + 1)).map
        (fun (t : Nat) =>
          if 0 ≤ 10 - (s + (t : Int)) ∧ 10 - (s + (t : Int)) ≤ ((k : Int) + 1) * 10 then
            wcCount k (s + (t : Int))
          else 0) =
        (List.range (n + 1)).map (fun t => Nat.choose ((n - t) + k) k) := by
      refine List.map_congr_left ?_
      intro t ht
      have ht' : t ≤ n := by
        have := List.mem_range.1 ht
        omega
      rw [if_pos ⟨by omega, by omega⟩, ih (s + (t : Int)) (by omega) (by omega)]
      congr 2
      omega
    rw [hmap, list_sum_range_eq]
    have hreflect := Finset.sum_range_reflect (fun i => Nat.choose (i + k) k) (n + 1)
    have hsum : (∑ t ∈ Finset.range (n + 1), Nat.choose ((n - t) + k) k) =
        ∑ i ∈ Finset.range (n + 1), Nat.choose (i + k) k := by
      rw [← hreflect]
      refine Finset.sum_congr rfl ?_
      intro t ht
      congr 2
    rw [hsum, Nat.sum_range_add_choose]
    have harg : n + k + 1 = n + (k + 1) := by omega
    rw [harg]

theorem getD_set_self {l : List Nat} {i : Nat} {a : Nat} (h : i < l.length) :
    (l.set i a).getD i 0 = a := by
  rw [List.getD_eq_getElem?_getD, List.getElem?_set_self h]
  rfl

theorem getD_set_ne {l : List Nat} {i j : Nat} (h : i ≠ j) (a : Nat) :
    (l.set i a).getD j 0 = l.getD j 0 := by
  rw [List.getD_eq_getElem?_getD, List.getElem?_set_ne h, ← List.getD_eq_getElem?_getD]

theorem and_two_pow_ne_zero_iff (x b : Nat) :
    (x &&& 2 ^ b ≠ 0) ↔ x.testBit b = true := by
  rw [Nat.and_two_pow]
  rcases h : x.testBit b
  · simp
  · have hpos : 0 < 2 ^ b := Nat.pos_pow_of_pos b (by omega)
    constructor
    · intro _; rfl
    · intro _
      simp only [Bool.toNat_true, one_mul]
      omega

/-- Bits of the 64-bit complement mask `~(1 << b)`. -/
theorem testBit_not64 {b : Nat} (hb : b < 64) (j : Nat) :
    ((2 ^ 64 - 1) ^^^ 2 ^ b).testBit j = (decide (j < 64) && !decide (b = j)) := by
  rw [Nat.testBit_xor, Nat.testBit_two_pow_sub_one, Nat.testBit_two_pow]
  rcases Nat.lt_or_ge j 64 with hj | hj
  · by_cases hbj : b = j <;> simp [hj, hbj]
  · have hbj : b ≠ j := by omega
    simp [hbj, Nat.not_lt.2 hj, Nat.lt_irrefl]

theorem pid_ne_of_mem_of_ne (P : PointOps α) {ps : List α}
    (hnodup : (ps.map P.pid).Nodup) {p q : α} (hp : p ∈ ps) (hq : q ∈ ps)
    (hne : p ≠ q) : P.pid p ≠ P.pid q := by
  have hpw : ps.Pairwise fun a b => P.pid a ≠ P.pid b := (List.pairwise_map).1 hnodup
  exact hpw.forall (fun a b h => h.symm) hp hq hne

/-- Correctness of one `findSkyline` pass: membership in the skyline output is
exactly non-domination by every other input point, and every remaining point
is dominated by some skyline point. -/
theorem findSkyline_partition_spec (P : PointOps α) (d : Nat)
    {ps sky rem : List α}
    (hd : ∀ p ∈ ps, (P.dist p).length = d)
    (hnodup : (ps.map P.pid).Nodup)
    (h : findSkyline P d ps = .ok (sky, rem)) :
    (∀ p ∈ ps, (p ∈ sky ↔ ∀ q ∈ ps, q ≠ p →
      dominates d (P.dist q) (P.dist p) = false)) ∧
    (∀ r ∈ rem, ∃ f ∈ sky, dominates d (P.dist f) (P.dist r) = true) := by
  have hok := findSkyline_ok_of_dims P d ps hd
  rw [h] at hok
  have hpair := Except.ok.inj hok
  have hsky : sky = ps.filter (isSkyline P d ps) := congrArg Prod.fst hpair
  have hrem : rem = ps.filter fun p => !isSkyline P d ps p := congrArg Prod.snd hpair
  constructor
  · intro p hp
    rw [hsky]
    constructor
    · intro hps q hq hqp
      have hskyp : isSkyline P d ps p = true := List.of_mem_filter hps
      exact (isSkyline_iff P d ps p).1 hskyp q hq
        (pid_ne_of_mem_of_ne P hnodup hq hp hqp)
    · intro hnd
      refine List.mem_filter.2 ⟨hp, (isSkyline_iff P d ps p).2 ?_⟩
      intro o ho hop
      refine hnd o ho ?_
      intro hoe
      exact hop (congrArg P.pid hoe)
  · intro r hr
    rw [hrem] at hr
    have hrmem : r ∈ ps := List.mem_of_mem_filter hr
    have hrbad : isSkyline P d ps r = false := by
      have := (List.mem_filter.1 hr).2
      simpa using this
    have hdom : ∃ o ∈ ps, dominates d (P.dist o) (P.dist r) = true := by
      by_contra hno
      push_neg at hno
      have hgood : isSkyline P d ps r = true := by
        refine (isSkyline_iff P d ps r).2 ?_
        intro o ho _
        exact Bool.eq_false_iff.2 (hno o ho)
      rw [hrbad] at hgood
      exact Bool.false_ne_true hgood
    have hSne : (ps.filter fun q => dominates d (P.dist q) (P.dist r)) ≠ [] := by
      rcases hdom with ⟨o, ho, hdo⟩
      intro hnil
      exact (List.filter_eq_nil_iff.1 hnil) o ho hdo
    rcases exists_undominated P d
      (ps.filter fun q => dominates d (P.dist q) (P.dist r)) hSne with ⟨m, hmS, hmin⟩
    have hmps : m ∈ ps := List.mem_of_mem_filter hmS
    have hmr : dominates d (P.dist m) (P.dist r) = true := (List.mem_filter.1 hmS).2
    refine ⟨m, ?_, hmr⟩
    rw [hsky]
    refine List.mem_filter.2 ⟨hmps, (isSkyline_iff P d ps m).2 ?_⟩
    intro o ho _
    by_cases ht : dominates d (P.dist o) (P.dist m) = true
    · have hoS : o ∈ ps.filter fun q => dominates d (P.dist q) (P.dist r) :=
        List.mem_filter.2 ⟨ho, dominates_trans ht hmr⟩
      rw [hmin o hoS] at ht
      exact absurd ht Bool.false_ne_true
    · exact Bool.eq_false_iff.2 ht

/-- Points of later layers never dominate points of earlier layers in the
rebuilt pool (generic over the relabelling constructor `mk`, which must
preserve id and distances and write the layer). -/
theorem appendLayers_nondom (P : PointOps α) (d : Nat) (mk : α → Int → α)
    (lay : α → Int)
    (hmkd : ∀ p l, P.dist (mk p l) = P.dist p)
    (hmkl : ∀ p l, lay (mk p l) = l)
    {fuel : Nat} {ps : List α} {layers : List (List α)}
    (hpeel : peelAux P d fuel ps = .ok layers)
    (hnodup : (ps.map P.pid).Nodup)
    {a b : α}
    (ha : a ∈ appendLayers mk 0 layers) (hb : b ∈ appendLayers mk 0 layers)
    (hab : lay a < lay b) :
    dominates d (P.dist b) (P.dist a) = false := by
  rcases (mem_appendLayers mk layers 0 a).1 ha with ⟨i, hi, p, hp, rfl⟩
  rcases (mem_appendLayers mk layers 0 b).1 hb with ⟨j, hj, q, hq, rfl⟩
  rw [hmkl p (0 + (i : Int)), hmkl q (0 + (j : Int))] at hab
  have hij : i < j := by omega
  have hspec := peelAux_spec P d fuel ps layers hpeel
  have hpq := hspec.2 i j hij p hp q hq
  have hpps : p ∈ ps := by
    have hmem : layers.getD i [] ∈ layers := by
      rw [List.getD_eq_getElem layers [] hi]
      exact List.getElem_mem hi
    exact (hspec.1 (layers.getD i []) hmem).2 p hp
  have hqps : q ∈ ps := by
    have hmem : layers.getD j [] ∈ layers := by
      rw [List.getD_eq_getElem layers [] hj]
      exact List.getElem_mem hj
    exact (hspec.1 (layers.getD j []) hmem).2 q hq
  have hpid : P.pid q ≠ P.pid p :=
    pid_ne_of_mem_of_ne P hnodup hqps hpps fun h => hpq.1 h.symm
  rw [hmkd, hmkd]
  exact hpq.2 hpid

theorem gpsInitNeighbor_ok {st st' : MultiVectorGPS}
    {ps : List MultiVectorNeighbor} (h : st.initNeighbor ps = .ok st') :
    ∃ layers, initLayers gpsOps st.num_dimensions_ ps = .ok layers ∧
      st' = MultiVectorGPS.mk
        (sortNeighbors (st.pool_ ++ appendLayers gpsInitMk 0 layers))
        (match layers.getLast? with
          | some lay => lay
          | none => st.outlier_)
        st.M_ layers.length st.num_dimensions_ := by
  unfold MultiVectorGPS.initNeighbor at h
  rcases hl : initLayers gpsOps st.num_dimensions_ ps with e | layers
  · rw [hl] at h
    exact absurd (h : (Except.error e : Except Err MultiVectorGPS) = _) (by simp)
  · rw [hl] at h
    exact ⟨layers, rfl, (Except.ok.inj h).symm⟩

theorem degInitNeighbor_ok {st st' : MultiVectorDEG}
    {ps : List MultiVectorDEGNeighbor} (h : st.initNeighbor ps = .ok st') :
    ∃ layers, initLayers degOps st.num_dimensions_ ps = .ok layers ∧
      st' = MultiVectorDEG.mk
        (sortDEGNeighbors (st.pool_ ++
          appendLayers (degInitMk st.num_weight_combinations_) 0 layers))
        (match layers.getLast? with
          | some lay => lay
          | none => st.outlier_)
        st.M_ layers.length st.num_dimensions_ st.num_weight_combinations_ := by
  unfold MultiVectorDEG.initNeighbor at h
  rcases hl : initLayers degOps st.num_dimensions_ ps with e | layers
  · rw [hl] at h
    exact absurd (h : (Except.error e : Except Err MultiVectorDEG) = _) (by simp)
  · rw [hl] at h
    exact ⟨layers, rfl, (Except.ok.inj h).symm⟩

theorem gpsUpdateNeighbor_ok {st st' : MultiVectorGPS}
    (h : st.updateNeighbor = .ok st') :
    ∃ layers, st.updateLayers = .ok layers ∧
      st' = MultiVectorGPS.mk
        (appendLayers gpsUpdMk 0 layers)
        (match layers.getLast? with
          | some lay => lay
          | none => st.outlier_)
        st.M_ layers.length st.num_dimensions_ := by
  unfold MultiVectorGPS.updateNeighbor at h
  rcases hl : st.updateLayers with e | layers
  · rw [hl] at h
    exact absurd (h : (Except.error e : Except Err MultiVectorGPS) = _) (by simp)
  · rw [hl] at h
    exact ⟨layers, rfl, (Except.ok.inj h).symm⟩

theorem degUpdateNeighbor_ok {st st' : MultiVectorDEG}
    (h : st.updateNeighbor = .ok st') :
    ∃ layers, st.updateLayers = .ok layers ∧
      st' = MultiVectorDEG.mk
        (appendLayers (degUpdMk st.num_weight_combinations_) 0 layers)
        (match layers.getLast? with
          | some lay => lay
          | none => st.outlier_)
        st.M_ layers.length st.num_dimensions_ st.num_weight_combinations_ := by
  unfold MultiVectorDEG.updateNeighbor at h
  rcases hl : st.updateLayers with e | layers
  · rw [hl] at h
    exact absurd (h : (Except.error e : Except Err MultiVectorDEG) = _) (by simp)
  · rw [hl] at h
    exact ⟨layers, rfl, (Except.ok.inj h).symm⟩

theorem queueUpdateNeighbor_ok
    {q q' : MultiVectorSkylineQueue} {nk nk' : Int}
    (h : q.updateNeighbor nk = .ok (q', nk')) :
    ∃ layers, updateLayersAux gpsOps q.num_dimensions_ q.M_ q.pool_.length 0
        (sortNeighbors q.pool_) = .ok layers ∧
      q' = MultiVectorSkylineQueue.mk (appendLayers gpsUpdMk 0 layers)
        q.M_ layers.length q.num_dimensions_ ∧
      nk' = ((appendLayers gpsUpdMk 0 layers).foldl nkStep (true, nk, 0)).2.1 := by
  unfold MultiVectorSkylineQueue.updateNeighbor at h
  rcases hl : updateLayersAux gpsOps q.num_dimensions_ q.M_ q.pool_.length 0
      (sortNeighbors q.pool_) with e | layers
  · rw [hl] at h
    exact absurd
      (h : (Except.error e : Except Err (MultiVectorSkylineQueue × Int)) = _) (by simp)
  · rw [hl] at h
    have hpair := Except.ok.inj h
    exact ⟨layers, rfl, (congrArg Prod.fst hpair).symm, (congrArg Prod.snd hpair).symm⟩

theorem mem_sortNeighbors {l : List MultiVectorNeighbor} {a : MultiVectorNeighbor} :
    a ∈ sortNeighbors l ↔ a ∈ l :=
  List.mem_insertionSort _

theorem mem_sortDEGNeighbors {l : List MultiVectorDEGNeighbor}
    {a : MultiVectorDEGNeighbor} : a ∈ sortDEGNeighbors l ↔ a ∈ l :=
  List.mem_insertionSort _

theorem nkFold_false : ∀ (l : List MultiVectorNeighbor) (nk k : Int),
    (l.foldl nkStep (false, nk, k)).2.1 = nk := by
  intro l
  induction l with
  | nil => intro nk k; rfl
  | cons p rest ih =>
    intro nk k
    show (rest.foldl nkStep (nkStep (false, nk, k) p)).2.1 = nk
    have hstep : nkStep (false, nk, k) p = (false, nk, k + 1) := rfl
    rw [hstep]
    exact ih nk (k + 1)

/-- The `nk`/`k` bookkeeping of the queue update sets `nk` to the value of `k`
when the first flagged point is appended; since `k` is incremented twice for
every earlier (unflagged) point, this is twice the position of the first
flagged point. -/
theorem nkFold_first_flagged : ∀ (l : List MultiVectorNeighbor) (nk k : Int),
    (∃ p ∈ l, p.flag = true) →
    (l.foldl nkStep (true, nk, k)).2.1 =
      k + 2 * ((l.findIdx fun p => p.flag) : Int) := by
  intro l
  induction l with
  | nil =>
    intro nk k h
    rcases h with ⟨p, hp, _⟩
    exact absurd hp (List.not_mem_nil p)
  | cons p rest ih =>
    intro nk k hex
    show (rest.foldl nkStep (nkStep (true, nk, k) p)).2.1 = _
    rcases hflag : p.flag with _ | _
    · have hstep : nkStep (true, nk, k) p = (true, nk, k + 2) := by
        simp [nkStep, hflag]
        ring
      have hex2 : ∃ q ∈ rest, q.flag = true := by
        rcases hex with ⟨q, hq, hqf⟩
        rcases List.mem_cons.1 hq with rfl | hq
        · rw [hflag] at hqf; exact absurd hqf Bool.false_ne_true
        · exact ⟨q, hq, hqf⟩
      rw [hstep, ih nk (k + 2) hex2, List.findIdx_cons]
      simp only [hflag, cond_false]
      push_cast
      ring
    · have hstep : nkStep (true, nk, k) p = (false, k, k + 1) := by
        simp [nkStep, hflag]
      rw [hstep, nkFold_false, List.findIdx_cons]
      simp only [hflag, cond_true]
      simp

/-- C5: for every input with pairwise-distinct ids and distance vectors all of
length `d`, `findSkyline` (both the plain and the weighted variant) puts a
point in the frontier iff no other input point dominates it, and every point
in the remainder is dominated by at least one frontier point. -/
theorem C5_findSkyline_frontier_remainder :
    (∀ (d : Nat) (ps sky rem : List MultiVectorNeighbor),
      (∀ p ∈ ps, p.distances_.length = d) →
      (ps.map MultiVectorNeighbor.id_).Nodup →
      MultiVectorGPS.runFindSkyline d ps = .ok (sky, rem) →
      (∀ p ∈ ps, (p ∈ sky ↔ ∀ q ∈ ps, q ≠ p →
        dominates d q.distances_ p.distances_ = false)) ∧
      (∀ r ∈ rem, ∃ f ∈ sky, dominates d f.distances_ r.distances_ = true)) ∧
    (∀ (d : Nat) (ps sky rem : List MultiVectorDEGNeighbor),
      (∀ p ∈ ps, p.distances_.length = d) →
      (ps.map MultiVectorDEGNeighbor.id_).Nodup →
      MultiVectorDEG.runFindSkyline d ps = .ok (sky, rem) →
      (∀ p ∈ ps, (p ∈ sky ↔ ∀ q ∈ ps, q ≠ p →
        dominates d q.distances_ p.distances_ = false)) ∧
      (∀ r ∈ rem, ∃ f ∈ sky, dominates d f.distances_ r.distances_ = true)) := by
  constructor
  · intro d ps sky rem hd hnodup h
    exact findSkyline_partition_spec gpsOps d hd hnodup h
  · intro d ps sky rem hd hnodup h
    exact findSkyline_partition_spec degOps d hd hnodup h

theorem C5_witness :
    ∃ f ∈ [(⟨1, [5, 30], true, 0⟩ : MultiVectorNeighbor), ⟨2, [15, 10], true, 0⟩,
      ⟨3, [8, 15], true, 0⟩], dominates 2 f.distances_ [10, 20] = true :=
  ((C5_findSkyline_frontier_remainder.1 2
      [⟨0, [10, 20], true, 0⟩, ⟨1, [5, 30], true, 0⟩, ⟨2, [15, 10], true, 0⟩,
        ⟨3, [8, 15], true, 0⟩, ⟨4, [20, 25], true, 0⟩]
      [⟨1, [5, 30], true, 0⟩, ⟨2, [15, 10], true, 0⟩, ⟨3, [8, 15], true, 0⟩]
      [⟨0, [10, 20], true, 0⟩, ⟨4, [20, 25], true, 0⟩]
      (by decide) (by decide) (by decide)).2
    ⟨0, [10, 20], true, 0⟩ (by decide))

/-- C6: a nonempty `findSkyline` input containing a point of the wrong
dimensionality makes both variants fail with the dimension-mismatch error
(`std::invalid_argument`); the validation loop precedes the partition loop
in the source, so nothing is appended to either output. -/
theorem C6_findSkyline_dimension_mismatch :
    (∀ (d : Nat) (ps : List MultiVectorNeighbor), ps ≠ [] →
      (∃ p ∈ ps, p.distances_.length ≠ d) →
      MultiVectorGPS.runFindSkyline d ps = .error .DimensionMismatch) ∧
    (∀ (d : Nat) (ps : List MultiVectorDEGNeighbor), ps ≠ [] →
      (∃ p ∈ ps, p.distances_.length ≠ d) →
      MultiVectorDEG.runFindSkyline d ps = .error .DimensionMismatch) := by
  constructor
  · intro d ps hne hbad
    exact findSkyline_error gpsOps d ps hne hbad
  · intro d ps hne hbad
    exact findSkyline_error degOps d ps hne hbad

theorem C6_witness :
    MultiVectorGPS.runFindSkyline 2
      [⟨0, [10, 20], true, 0⟩, ⟨1, [5, 30, 25], true, 0⟩] =
      .error .DimensionMismatch :=
  C6_findSkyline_dimension_mismatch.1 2
    [⟨0, [10, 20], true, 0⟩, ⟨1, [5, 30, 25], true, 0⟩]
    (by decide) ⟨⟨1, [5, 30, 25], true, 0⟩, by decide, by decide⟩

/-- C7: inserting a length-`d` vector under an id already present in the pool
or the outlier set is a silent no-op in both variants: the state is returned
unchanged and no error is raised. -/
theorem C7_insert_duplicate_noop :
    (∀ (st : MultiVectorGPS) (id : Nat) (v : List ℚ),
      v.length = st.num_dimensions_ →
      ((st.pool_.any fun p => decide (p.id_ = id)) = true ∨
        (st.outlier_.any fun p => decide (p.id_ = id)) = true) →
      st.insert id v = .ok st) ∧
    (∀ (st : MultiVectorDEG) (id : Nat) (v : List ℚ),
      v.length = st.num_dimensions_ →
      ((st.pool_.any fun p => decide (p.id_ = id)) = true ∨
        (st.outlier_.any fun p => decide (p.id_ = id)) = true) →
      st.insert id v = .ok st) := by
  constructor
  · intro st id v hlen hdup
    unfold MultiVectorGPS.insert
    rw [if_neg (not_ne_iff.2 hlen)]
    rcases hdup with hpool | hout
    · rw [if_pos hpool]
    · by_cases hpool : (st.pool_.any fun p => decide (p.id_ = id)) = true
      · rw [if_pos hpool]
      · rw [if_neg hpool, if_pos hout]
  · intro st id v hlen hdup
    unfold MultiVectorDEG.insert
    rw [if_neg (not_ne_iff.2 hlen)]
    rcases hdup with hpool | hout
    · rw [if_pos hpool]
    · by_cases hpool : (st.pool_.any fun p => decide (p.id_ = id)) = true
      · rw [if_pos hpool]
      · rw [if_neg hpool, if_pos hout]

theorem C7_witness :
    (MultiVectorGPS.mk [⟨7, [1, 2], true, 0⟩] [⟨9, [3, 4], true, 0⟩] 10 1 2).insert
      9 [3, 4] = .ok (MultiVectorGPS.mk [⟨7, [1, 2], true, 0⟩]
        [⟨9, [3, 4], true, 0⟩] 10 1 2) :=
  C7_insert_duplicate_noop.1 (MultiVectorGPS.mk [⟨7, [1, 2], true, 0⟩]
    [⟨9, [3, 4], true, 0⟩] 10 1 2) 9 [3, 4] (by decide) (Or.inr (by decide))

def c1GpsStart : MultiVectorGPS := ⟨[⟨0, [0, 0], true, 0⟩], [], 4, 1, 2⟩

def c1DegStart : MultiVectorDEG := ⟨[mkDEGNeighbor 0 [0, 0] 11 true 0], [], 4, 1, 2, 11⟩

/-- C1: failing input for the lazy-insert contract.  `insert(1, [1,1])`
succeeds and places the point in the outlier set (last two conjuncts), but
`updateNeighbor` re-layers the pool contents only — `outlier_` is never
added to the candidate set, and is in fact overwritten with the last
admitted layer — so after `update()` the inserted point is a member of
neither the pool nor the outlier set, in both variants. -/
theorem C1_insert_update_loses_point :
    ((c1GpsStart.insert 1 [1, 1]).map
      (fun s => s.outlier_.any fun p => decide (p.id_ = 1))) = .ok true ∧
    ((c1DegStart.insert 1 [1, 1]).map
      (fun s => s.outlier_.any fun p => decide (p.id_ = 1))) = .ok true ∧
    ((c1GpsStart.insert 1 [1, 1]).bind MultiVectorGPS.updateNeighbor).map
      (fun s => (s.pool_ ++ s.outlier_).any fun p => decide (p.id_ = 1)) = .ok false ∧
    ((c1DegStart.insert 1 [1, 1]).bind MultiVectorDEG.updateNeighbor).map
      (fun s => (s.pool_ ++ s.outlier_).any fun p => decide (p.id_ = 1)) = .ok false :=
  ⟨by decide, by decide, by decide, by decide⟩

def c2Pool : List MultiVectorNeighbor := [⟨1, [0, 1], true, 0⟩, ⟨2, [1, 0], true, 0⟩]

def c2St : MultiVectorGPS := ⟨c2Pool, [], 1, 1, 2⟩

def c2StAfter : MultiVectorGPS := ⟨c2Pool, c2Pool, 1, 1, 2⟩

/-- C2 counterexample: a pool of two mutually non-dominating points with
capacity `M = 1`.  The update loop admits the whole first layer (both
points) because the pool held fewer than `M` points when the layer was
extracted, so the pool size after `update()` is `2 > M`. -/
theorem C2_counterexample :
    (c2St.updateNeighbor).map (fun st => decide (st.pool_.length ≤ c2St.M_)) =
      .ok false := by
  decide

/-- C2 (amended): `update()` never grows the pool beyond its pre-update size,
and every admitted layer except the last was admitted while the pool held
fewer than `M` points: the pool exceeds `M` by less than the size of the
last admitted layer (it is not a hard `M` bound). -/
theorem C2_amended_soft_capacity :
    (∀ (st st' : MultiVectorGPS) (layers : List (List MultiVectorNeighbor)),
      st.updateLayers = .ok layers →
      st.updateNeighbor = .ok st' →
      st'.pool_.length ≤ st.pool_.length ∧
      ∀ last, layers.getLast? = some last →
        st'.pool_.length < st.M_ + last.length) ∧
    (∀ (st st' : MultiVectorDEG) (layers : List (List MultiVectorDEGNeighbor)),
      st.updateLayers = .ok layers →
      st.updateNeighbor = .ok st' →
      st'.pool_.length ≤ st.pool_.length ∧
      ∀ last, layers.getLast? = some last →
        st'.pool_.length < st.M_ + last.length) := by
  constructor
  · intro st st' layers hl hok
    rcases gpsUpdateNeighbor_ok hok with ⟨layers2, hl2, hst'⟩
    rw [hl] at hl2
    have hlayers : layers2 = layers := (Except.ok.inj hl2).symm
    subst hlayers
    have hspec := updateLayersAux_spec gpsOps st.num_dimensions_ st.M_
      st.pool_.length 0 (sortNeighbors st.pool_) layers2 hl
    have hsort : (sortNeighbors st.pool_).length = st.pool_.length :=
      List.length_insertionSort _ _
    constructor
    · rw [hst']
      show (appendLayers gpsUpdMk 0 layers2).length ≤ st.pool_.length
      rw [appendLayers_length]
      have := hspec.1.1
      omega
    · intro last hlast
      rw [hst']
      show (appendLayers gpsUpdMk 0 layers2).length < st.M_ + last.length
      rw [appendLayers_length]
      have := hspec.2 last hlast
      omega
  · intro st st' layers hl hok
    rcases degUpdateNeighbor_ok hok with ⟨layers2, hl2, hst'⟩
    rw [hl] at hl2
    have hlayers : layers2 = layers := (Except.ok.inj hl2).symm
    subst hlayers
    have hspec := updateLayersAux_spec degOps st.num_dimensions_ st.M_
      st.pool_.length 0 (sortDEGNeighbors st.pool_) layers2 hl
    have hsort : (sortDEGNeighbors st.pool_).length = st.pool_.length :=
      List.length_insertionSort _ _
    constructor
    · rw [hst']
      show (appendLayers (degUpdMk st.num_weight_combinations_) 0 layers2).length ≤
        st.pool_.length
      rw [appendLayers_length]
      have := hspec.1.1
      omega
    · intro last hlast
      rw [hst']
      show (appendLayers (degUpdMk st.num_weight_combinations_) 0 layers2).length <
        st.M_ + last.length
      rw [appendLayers_length]
      have := hspec.2 last hlast
      omega

theorem C2_amended_witness :
    c2StAfter.pool_.length ≤ c2St.pool_.length ∧
    c2StAfter.pool_.length < c2St.M_ + c2Pool.length := by
  have h := C2_amended_soft_capacity.1 c2St c2StAfter [c2Pool] (by decide) (by decide)
  exact ⟨h.1, h.2 c2Pool (by decide)⟩

def c3Queue : MultiVectorSkylineQueue :=
  ⟨[⟨1, [1, 1], false, 0⟩, ⟨2, [2, 3], true, 1⟩], 3, 2, 2⟩

def c3QueueAfter : MultiVectorSkylineQueue :=
  ⟨[⟨1, [1, 1], false, 0⟩, ⟨2, [2, 3], true, 1⟩], 3, 2, 2⟩

/-- C3 counterexample: a plain queue whose pool holds one unflagged point
followed by one flagged point, below capacity.  After `updateNeighbor(nk)`
the first flagged point lands at position `1` of the rebuilt pool, but `nk`
is set to `2`: the `k` counter is incremented twice (once in the `else`
branch, once at the end of the loop body) for every unflagged point that
precedes the flagged one. -/
theorem C3_counterexample :
    (c3Queue.pool_.any fun p => p.flag) = true ∧
    c3Queue.pool_.length < c3Queue.M_ ∧
    (c3Queue.updateNeighbor 0).map
      (fun r => decide (r.2 = ((r.1.pool_.findIdx fun p => p.flag) : Int))) =
      .ok false := by
  exact ⟨by decide, by decide, by decide⟩

/-- C3 (amended): when the rebuilt pool contains a flagged point,
`updateNeighbor(nk)` sets `nk` to twice the position at which the first
flagged point lands. -/
theorem C3_amended_nk_twice_position :
    ∀ (q q' : MultiVectorSkylineQueue) (nk0 nk' : Int),
      q.updateNeighbor nk0 = .ok (q', nk') →
      (∃ p ∈ q'.pool_, p.flag = true) →
      nk' = 2 * ((q'.pool_.findIdx fun p => p.flag) : Int) := by
  intro q q' nk0 nk' hok hex
  rcases queueUpdateNeighbor_ok hok with ⟨layers, hl, hq', hnk⟩
  subst hq'
  rw [hnk, nkFold_first_flagged _ nk0 0 hex]
  ring

theorem C3_amended_witness :
    (2 : Int) = 2 * ((c3QueueAfter.pool_.findIdx fun p => p.flag) : Int) :=
  C3_amended_nk_twice_position c3Queue c3QueueAfter 0 2 (by decide)
    ⟨⟨2, [2, 3], true, 1⟩, by decide, by decide⟩

theorem peelAux_ne_nil (P : PointOps α) (d : Nat) {fuel : Nat} {ps : List α}
    {layers : List (List α)} (hne : ps ≠ []) (h : peelAux P d fuel ps = .ok layers) :
    layers ≠ [] := by
  obtain ⟨a, l, rfl⟩ := List.exists_cons_of_ne_nil hne
  match fuel with
  | 0 =>
    rw [show peelAux P d 0 (a :: l) = .error .FuelExhausted from rfl] at h
    exact absurd h (by simp)
  | Nat.succ f =>
    rw [show peelAux P d (f + 1) (a :: l) =
        (match findSkyline P d (a :: l) with
        | .error e => .error e
        | .ok (sky, rem) =>
          match peelAux P d f rem with
          | .error e => .error e
          | .ok rest => .ok (sky :: rest)) from rfl] at h
    rcases hfs : findSkyline P d (a :: l) with e | pr
    · rw [hfs] at h
      exact absurd (h : (Except.error e : Except Err (List (List α))) = _) (by simp)
    rcases pr with ⟨sky, rem⟩
    rw [hfs] at h
    have h2 : (match peelAux P d f rem with
        | Except.error e => (Except.error e : Except Err (List (List α)))
        | Except.ok rest => Except.ok (sky :: rest)) = Except.ok layers := h
    rcases hpe : peelAux P d f rem with e | rest
    · rw [hpe] at h2
      exact absurd h2 (by simp)
    · rw [hpe] at h2
      have : layers = sky :: rest := (Except.ok.inj h2).symm
      rw [this]
      exact List.cons_ne_nil sky rest

def c4Pts : List MultiVectorNeighbor :=
  [⟨0, [10, 20], true, 0⟩, ⟨1, [5, 30], true, 0⟩, ⟨2, [15, 10], true, 0⟩,
   ⟨3, [8, 15], true, 0⟩, ⟨4, [20, 25], true, 0⟩]

def c4St : MultiVectorGPS := ⟨[], [], 10, 0, 2⟩

def c4StAfter : MultiVectorGPS :=
  ⟨[⟨1, [5, 30], true, 0⟩, ⟨3, [8, 15], true, 0⟩, ⟨0, [10, 20], true, 1⟩,
    ⟨2, [15, 10], true, 0⟩, ⟨4, [20, 25], true, 2⟩],
   [⟨4, [20, 25], true, 0⟩], 10, 3, 2⟩

/-- C4: after `initNeighbor` on a fresh instance, with pairwise-distinct ids
and well-dimensioned input, no pool point of a later layer dominates a pool
point of an earlier layer, in both variants. -/
theorem C4_layer_monotonic :
    (∀ (st st' : MultiVectorGPS) (ps : List MultiVectorNeighbor),
      st.pool_ = [] →
      (∀ p ∈ ps, p.distances_.length = st.num_dimensions_) →
      (ps.map MultiVectorNeighbor.id_).Nodup →
      st.initNeighbor ps = .ok st' →
      ∀ a ∈ st'.pool_, ∀ b ∈ st'.pool_, a.layer_ < b.layer_ →
        dominates st.num_dimensions_ b.distances_ a.distances_ = false) ∧
    (∀ (st st' : MultiVectorDEG) (ps : List MultiVectorDEGNeighbor),
      st.pool_ = [] →
      (∀ p ∈ ps, p.distances_.length = st.num_dimensions_) →
      (ps.map MultiVectorDEGNeighbor.id_).Nodup →
      st.initNeighbor ps = .ok st' →
      ∀ a ∈ st'.pool_, ∀ b ∈ st'.pool_, a.layer_ < b.layer_ →
        dominates st.num_dimensions_ b.distances_ a.distances_ = false) := by
  constructor
  · intro st st' ps hpool _hdims hnodup hok a ha b hb hab
    rcases gpsInitNeighbor_ok hok with ⟨layers, hl, hst'⟩
    subst hst'
    have ha2 : a ∈ appendLayers gpsInitMk 0 layers := by
      have hmem := mem_sortNeighbors.1 ha
      rw [hpool] at hmem
      simpa using hmem
    have hb2 : b ∈ appendLayers gpsInitMk 0 layers := by
      have hmem := mem_sortNeighbors.1 hb
      rw [hpool] at hmem
      simpa using hmem
    exact appendLayers_nondom gpsOps st.num_dimensions_ gpsInitMk
      MultiVectorNeighbor.layer_ (fun p l => rfl) (fun p l => rfl)
      hl hnodup ha2 hb2 hab
  · intro st st' ps hpool _hdims hnodup hok a ha b hb hab
    rcases degInitNeighbor_ok hok with ⟨layers, hl, hst'⟩
    subst hst'
    have ha2 : a ∈ appendLayers (degInitMk st.num_weight_combinations_) 0 layers := by
      have hmem := mem_sortDEGNeighbors.1 ha
      rw [hpool] at hmem
      simpa using hmem
    have hb2 : b ∈ appendLayers (degInitMk st.num_weight_combinations_) 0 layers := by
      have hmem := mem_sortDEGNeighbors.1 hb
      rw [hpool] at hmem
      simpa using hmem
    exact appendLayers_nondom degOps st.num_dimensions_
      (degInitMk st.num_weight_combinations_)
      MultiVectorDEGNeighbor.layer_ (fun p l => rfl) (fun p l => rfl)
      hl hnodup ha2 hb2 hab

theorem C4_witness : dominates 2 [10, 20] [5, 30] = false :=
  (C4_layer_monotonic.1 c4St c4StAfter c4Pts rfl (by decide) (by decide) (by decide))
    ⟨1, [5, 30], true, 0⟩ (by decide) ⟨0, [10, 20], true, 1⟩ (by decide) (by decide)

/-- C10: after a successful `initNeighbor` on a nonempty input, the outlier
set is nonempty and holds exactly the last extracted skyline layer; the ids
of its points are also pool ids, and a subsequent `insert` of any of them
(with a well-dimensioned vector) is rejected as a duplicate (state returned
unchanged), in both variants. -/
theorem C10_init_outlier_is_last_layer :
    (∀ (st st' : MultiVectorGPS) (ps : List MultiVectorNeighbor),
      ps ≠ [] →
      st.initNeighbor ps = .ok st' →
      st'.outlier_ ≠ [] ∧
      (∀ layers, initLayers gpsOps st.num_dimensions_ ps = .ok layers →
        layers.getLast? = some st'.outlier_) ∧
      (∀ p ∈ st'.outlier_, (st'.pool_.any fun a => decide (a.id_ = p.id_)) = true) ∧
      (∀ p ∈ st'.outlier_, ∀ v : List ℚ, v.length = st.num_dimensions_ →
        st'.insert p.id_ v = .ok st')) ∧
    (∀ (st st' : MultiVectorDEG) (ps : List MultiVectorDEGNeighbor),
      ps ≠ [] →
      st.initNeighbor ps = .ok st' →
      st'.outlier_ ≠ [] ∧
      (∀ layers, initLayers degOps st.num_dimensions_ ps = .ok layers →
        layers.getLast? = some st'.outlier_) ∧
      (∀ p ∈ st'.outlier_, (st'.pool_.any fun a => decide (a.id_ = p.id_)) = true) ∧
      (∀ p ∈ st'.outlier_, ∀ v : List ℚ, v.length = st.num_dimensions_ →
        st'.insert p.id_ v = .ok st')) := by
  constructor
  · intro st st' ps hne hok
    rcases gpsInitNeighbor_ok hok with ⟨layers, hl, hst'⟩
    have hlne : layers ≠ [] := peelAux_ne_nil gpsOps st.num_dimensions_ hne hl
    have hlast : layers.getLast? = some (layers.getLast hlne) :=
      List.getLast?_eq_getLast layers hlne
    have hout : st'.outlier_ = layers.getLast hlne := by
      rw [hst']
      show (match layers.getLast? with
        | some lay => lay
        | none => st.outlier_) = layers.getLast hlne
      rw [hlast]
    have hlastmem : layers.getLast hlne ∈ layers := List.getLast_mem hlne
    have hspec := peelAux_spec gpsOps st.num_dimensions_ ps.length ps layers hl
    have hidx : layers.getLast hlne = layers.getD (layers.length - 1) [] := by
      rw [List.getLast_eq_getElem, List.getD_eq_getElem layers []
        (by
          have : 0 < layers.length := List.length_pos.2 hlne
          omega)]
    have hpoolmem : ∀ p ∈ st'.outlier_,
        (st'.pool_.any fun a => decide (a.id_ = p.id_)) = true := by
      intro p hp
      rw [hout, hidx] at hp
      have hlt : layers.length - 1 < layers.length := by
        have : 0 < layers.length := List.length_pos.2 hlne
        omega
      have happ : gpsInitMk p (0 + ((layers.length - 1 : Nat) : Int)) ∈
          appendLayers gpsInitMk 0 layers :=
        (mem_appendLayers gpsInitMk layers 0 _).2 ⟨layers.length - 1, hlt, p, hp, rfl⟩
      have hpool : gpsInitMk p (0 + ((layers.length - 1 : Nat) : Int)) ∈ st'.pool_ := by
        rw [hst']
        exact mem_sortNeighbors.2 (List.mem_append_right _ happ)
      exact List.any_eq_true.2 ⟨_, hpool, by simp [gpsInitMk]⟩
    refine ⟨?_, ?_, hpoolmem, ?_⟩
    · rw [hout]
      exact (hspec.1 (layers.getLast hlne) hlastmem).1
    · intro layers2 hl2
      rw [hl] at hl2
      have : layers2 = layers := (Except.ok.inj hl2).symm
      rw [this, hlast, hout]
    · intro p hp v hv
      have hd : st'.num_dimensions_ = st.num_dimensions_ := by rw [hst']
      unfold MultiVectorGPS.insert
      rw [if_neg (not_ne_iff.2 (by rw [hd]; exact hv)), if_pos (hpoolmem p hp)]
  · intro st st' ps hne hok
    rcases degInitNeighbor_ok hok with ⟨layers, hl, hst'⟩
    have hlne : layers ≠ [] := peelAux_ne_nil degOps st.num_dimensions_ hne hl
    have hlast : layers.getLast? = some (layers.getLast hlne) :=
      List.getLast?_eq_getLast layers hlne
    have hout : st'.outlier_ = layers.getLast hlne := by
      rw [hst']
      show (match layers.getLast? with
        | some lay => lay
        | none => st.outlier_) = layers.getLast hlne
      rw [hlast]
    have hlastmem : layers.getLast hlne ∈ layers := List.getLast_mem hlne
    have hspec := peelAux_spec degOps st.num_dimensions_ ps.length ps layers hl
    have hidx : layers.getLast hlne = layers.getD (layers.length - 1) [] := by
      rw [List.getLast_eq_getElem, List.getD_eq_getElem layers []
        (by
          have : 0 < layers.length := List.length_pos.2 hlne
          omega)]
    have hpoolmem : ∀ p ∈ st'.outlier_,
        (st'.pool_.any fun a => decide (a.id_ = p.id_)) = true := by
      intro p hp
      rw [hout, hidx] at hp
      have hlt : layers.length - 1 < layers.length := by
        have : 0 < layers.length := List.length_pos.2 hlne
        omega
      have happ : degInitMk st.num_weight_combinations_ p
          (0 + ((layers.length - 1 : Nat) : Int)) ∈
          appendLayers (degInitMk st.num_weight_combinations_) 0 layers :=
        (mem_appendLayers (degInitMk st.num_weight_combinations_) layers 0 _).2
          ⟨layers.length - 1, hlt, p, hp, rfl⟩
      have hpool : degInitMk st.num_weight_combinations_ p
          (0 + ((layers.length - 1 : Nat) : Int)) ∈ st'.pool_ := by
        rw [hst']
        exact mem_sortDEGNeighbors.2 (List.mem_append_right _ happ)
      exact List.any_eq_true.2 ⟨_, hpool, by simp [degInitMk, mkDEGNeighbor]⟩
    refine ⟨?_, ?_, hpoolmem, ?_⟩
    · rw [hout]
      exact (hspec.1 (layers.getLast hlne) hlastmem).1
    · intro layers2 hl2
      rw [hl] at hl2
      have : layers2 = layers := (Except.ok.inj hl2).symm
      rw [this, hlast, hout]
    · intro p hp v hv
      have hd : st'.num_dimensions_ = st.num_dimensions_ := by rw [hst']
      unfold MultiVectorDEG.insert
      rw [if_neg (not_ne_iff.2 (by rw [hd]; exact hv)), if_pos (hpoolmem p hp)]

theorem C10_witness :
    c4StAfter.outlier_ ≠ [] ∧ c4StAfter.insert 4 [0, 0] = .ok c4StAfter := by
  have h := C10_init_outlier_is_last_layer.1 c4St c4StAfter c4Pts (by decide) (by decide)
  exact ⟨h.1, h.2.2.2 ⟨4, [20, 25], true, 0⟩ (by decide) [0, 0] (by decide)⟩

/-- C8: the weight lattice (weights in tenths: `10` stands for `1.0`) is empty
for `d = 0`, the single combination `{1.0}` for `d = 1`, and for every
`d ∈ [1, 8]` consists of exactly `C(10 + d - 1, d - 1)` distinct
combinations — in particular `11`, `66` and `286` for `d = 2, 3, 4`. -/
theorem C8_weight_lattice_counts :
    generateWeightCombinations 0 = [] ∧
    generateWeightCombinations 1 = [[10]] ∧
    (generateWeightCombinations 2).length = 11 ∧
    (generateWeightCombinations 3).length = 66 ∧
    (generateWeightCombinations 4).length = 286 ∧
    ∀ d : Nat, 1 ≤ d → d ≤ 8 →
      (generateWeightCombinations d).length = Nat.choose (10 + d - 1) (d - 1) ∧
      (generateWeightCombinations d).Nodup := by
  have hgen : ∀ d : Nat, 2 ≤ d →
      (generateWeightCombinations d).length = Nat.choose (10 + d - 1) (d - 1) := by
    intro d hd
    rw [gwc_length_of_two_le d hd, wcCount_eq (d - 1) 0 (by omega) (by omega)]
    congr 1
    omega
  refine ⟨rfl, rfl, ?_, ?_, ?_, ?_⟩
  · rw [hgen 2 (by omega)]
    decide
  · rw [hgen 3 (by omega)]
    decide
  · rw [hgen 4 (by omega)]
    decide
  · intro d h1 _h8
    refine ⟨?_, gwc_nodup d⟩
    rcases Nat.lt_or_ge d 2 with hd | hd
    · interval_cases d
      · rfl
    · exact hgen d hd

theorem C8_witness :
    (1 : Nat) ≤ 2 ∧ (2 : Nat) ≤ 8 ∧
    (generateWeightCombinations 2).length = Nat.choose 11 1 ∧
    (generateWeightCombinations 2).Nodup :=
  ⟨by decide, by decide, (C8_weight_lattice_counts.2.2.2.2.2 2 (by decide) (by decide)).1,
    (C8_weight_lattice_counts.2.2.2.2.2 2 (by decide) (by decide)).2⟩

theorem word_set_get (old k : Nat) (hk : k < 64) :
    ((old ||| 2 ^ k) &&& 2 ^ k ≠ 0) ∧
    ¬((old &&& ((2 ^ 64 - 1) ^^^ 2 ^ k)) &&& 2 ^ k ≠ 0) := by
  constructor
  · refine (and_two_pow_ne_zero_iff _ _).2 ?_
    rw [Nat.testBit_or, Nat.testBit_two_pow_self]
    simp
  · intro h
    have hbit := (and_two_pow_ne_zero_iff _ _).1 h
    rw [Nat.testBit_and, testBit_not64 hk] at hbit
    simp at hbit

theorem word_set_frame (old k k2 : Nat) (hk : k < 64) (hk2 : k2 < 64)
    (hne : k ≠ k2) :
    (((old ||| 2 ^ k) &&& 2 ^ k2 ≠ 0) ↔ (old &&& 2 ^ k2 ≠ 0)) ∧
    (((old &&& ((2 ^ 64 - 1) ^^^ 2 ^ k)) &&& 2 ^ k2 ≠ 0) ↔
      (old &&& 2 ^ k2 ≠ 0)) := by
  constructor
  · rw [and_two_pow_ne_zero_iff, and_two_pow_ne_zero_iff,
      Nat.testBit_or, Nat.testBit_two_pow_of_ne hne]
    simp
  · rw [and_two_pow_ne_zero_iff, and_two_pow_ne_zero_iff,
      Nat.testBit_and, testBit_not64 hk]
    simp [hk2, hne]

/-- C9: for a well-formed weighted point (bitmap sized for its combination
count) and indices `i ≠ j` below the count, `setPruned(i, b)` followed by
`isPruned(i)` returns `b`, and the pruning state at `j` is unchanged. -/
theorem C9_bitmap_roundtrip :
    ∀ (p : MultiVectorDEGNeighbor) (i j : Nat) (b : Bool),
      p.pruning_bitmap_.length = (p.num_weight_combinations_ + 63) / 64 →
      i < p.num_weight_combinations_ →
      j < p.num_weight_combinations_ →
      j ≠ i →
      ((p.setPruned i b).bind fun q => q.isPruned i) = .ok b ∧
      ((p.setPruned i b).bind fun q => q.isPruned j) = p.isPruned j := by
  intro p i j b hlen hi hj hji
  have hnoti : ¬ i ≥ p.num_weight_combinations_ := by omega
  have hnotj : ¬ j ≥ p.num_weight_combinations_ := by omega
  have hw : i / 64 < p.pruning_bitmap_.length := by
    rw [hlen]; omega
  have hbi : i % 64 < 64 := Nat.mod_lt i (by omega)
  have hbj : j % 64 < 64 := Nat.mod_lt j (by omega)
  have hset : p.setPruned i b = .ok ⟨p.id_, p.distances_,
      p.pruning_bitmap_.set (i / 64)
        (if b then p.pruning_bitmap_.getD (i / 64) 0 ||| 2 ^ (i % 64)
        else p.pruning_bitmap_.getD (i / 64) 0 &&& ((2 ^ 64 - 1) ^^^ 2 ^ (i % 64))),
      p.flag, p.layer_, p.num_weight_combinations_⟩ := by
    rw [MultiVectorDEGNeighbor.setPruned, if_neg hnoti]
  constructor
  · rw [hset]
    show (if i ≥ p.num_weight_combinations_ then (Except.error Err.IndexError : Except Err Bool)
      else .ok (decide ((p.pruning_bitmap_.set (i / 64)
        (if b then p.pruning_bitmap_.getD (i / 64) 0 ||| 2 ^ (i % 64)
        else p.pruning_bitmap_.getD (i / 64) 0 &&&
          ((2 ^ 64 - 1) ^^^ 2 ^ (i % 64)))).getD (i / 64) 0 &&& 2 ^ (i % 64) ≠ 0))) = .ok b
    rw [if_neg hnoti, getD_set_self hw]
    rcases b with _ | _
    · rw [if_neg (by simp)]
      have hfalse := (word_set_get (p.pruning_bitmap_.getD (i / 64) 0) (i % 64) hbi).2
      simp only [decide_eq_false hfalse]
    · rw [if_pos rfl]
      have htrue := (word_set_get (p.pruning_bitmap_.getD (i / 64) 0) (i % 64) hbi).1
      simp only [decide_eq_true htrue]
  · rw [hset]
    show (if j ≥ p.num_weight_combinations_ then (Except.error Err.IndexError : Except Err Bool)
      else .ok (decide ((p.pruning_bitmap_.set (i / 64)
        (if b then p.pruning_bitmap_.getD (i / 64) 0 ||| 2 ^ (i % 64)
        else p.pruning_bitmap_.getD (i / 64) 0 &&&
          ((2 ^ 64 - 1) ^^^ 2 ^ (i % 64)))).getD (j / 64) 0 &&& 2 ^ (j % 64) ≠ 0))) =
      p.isPruned j
    rw [MultiVectorDEGNeighbor.isPruned, if_neg hnotj, if_neg hnotj]
    by_cases hww : i / 64 = j / 64
    · have hbb : i % 64 ≠ j % 64 := by omega
      rw [← hww, getD_set_self hw]
      rcases b with _ | _
      · rw [if_neg (by simp)]
        have hiff := (word_set_frame (p.pruning_bitmap_.getD (i / 64) 0)
          (i % 64) (j % 64) hbi hbj hbb).2
        rw [decide_eq_decide.2 hiff]
      · rw [if_pos rfl]
        have hiff := (word_set_frame (p.pruning_bitmap_.getD (i / 64) 0)
          (i % 64) (j % 64) hbi hbj hbb).1
        rw [decide_eq_decide.2 hiff]
    · rw [getD_set_ne hww]

theorem C9_witness :
    (((mkDEGNeighbor 1 [10, 20] 11 true 0).setPruned 5 true).bind
      fun q => q.isPruned 5) = .ok true ∧
    (((mkDEGNeighbor 1 [10, 20] 11 true 0).setPruned 5 true).bind
      fun q => q.isPruned 9) = (mkDEGNeighbor 1 [10, 20] 11 true 0).isPruned 9 :=
  C9_bitmap_roundtrip (mkDEGNeighbor 1 [10, 20] 11 true 0) 5 9 true
    (by decide) (by decide) (by decide) (by decide)

end stkq
